import Mathlib

/-!
Shallow embedding of `src/field-detector.js` (class `FieldDetector`).

The document abstraction follows §6 of the spec: a document is an ordered
list of elements (all elements, in document order), a list of label
associations (`for` attribute → text content), and per-form action/method
accessors.  Element identity (JS reference equality, used by
`Array.indexOf` and `closest('form') === form`) is modelled by a `ref`
field.  JS `null`/absent strings are `Option String`; `filter(Boolean)`
drops both `none` and the empty string.

The source reads the ambient global `document` in `getFieldLabel` and
`getElementIndex`; the embedding makes that dependence explicit as a
`gdoc` parameter, distinct from the explicitly supplied `doc` parameter.
-/

namespace FieldDetector

/-- One input-like element: attribute accessors plus the identity and
ancestor-enclosure data the document abstraction provides (§6). -/
structure Element where
  ref : Nat
  tag : String
  type : String
  id : Option String
  name : Option String
  placeholder : Option String
  ariaLabel : Option String
  disabled : Bool
  formRef : Option Nat
  parentLabelText : Option String
  deriving DecidableEq, Repr

/-- The queryable document abstraction: all elements in document order,
label-for associations, and form action/method accessors. -/
structure Doc where
  elems : List Element
  labels : List (String × String)
  formAction : Nat → String
  formMethod : Nat → String

/-- `this.usernameFieldNames` from the constructor. -/
def usernameFieldNames : List String :=
  ["username", "user name", "userid", "user id", "customer id", "login id", "login",
   "benutzername", "benutzer name", "benutzerid", "benutzer id",
   "email", "email address", "e-mail", "e-mail address",
   "email adresse", "e-mail adresse"]

/-- `this.passwordFieldExcludeList` from the constructor. -/
def passwordFieldExcludeList : List String :=
  ["hint", "captcha", "findanything", "forgot", "totp", "totpcode", "2facode",
   "mfacode", "otc-code", "onetimecode", "otp-code", "otpcode", "security_code",
   "twofactor", "twofa", "twofactorcode", "verificationcode", "verification code"]

/-- `this.excludedInputTypes` from the constructor. -/
def excludedInputTypes : List String :=
  ["hidden", "submit", "reset", "button", "image", "file", "radio", "checkbox"]

/-- `this.searchFieldNames` from the constructor. -/
def searchFieldNames : List String :=
  ["search", "query", "find", "go"]

/-- ASCII lowercase letter, the regex class `[a-z]`. -/
def isLowerChar (c : Char) : Bool :=
  97 ≤ c.toNat ∧ c.toNat ≤ 122

/-- ASCII uppercase letter, the regex class `[A-Z]`. -/
def isUpperChar (c : Char) : Bool :=
  65 ≤ c.toNat ∧ c.toNat ≤ 90

/-- ASCII letter, the regex class `[a-zA-Z]` (also `[^a-z]` with the `i`
flag negated). -/
def isAlphaChar (c : Char) : Bool :=
  isLowerChar c ∨ isUpperChar c

/-- ASCII letter or digit, the regex class `[a-zA-Z0-9]`. -/
def isAlnumChar (c : Char) : Bool :=
  isAlphaChar c ∨ (48 ≤ c.toNat ∧ c.toNat ≤ 57)

/-- Whitespace as matched by the regex class `\s` (ASCII part). -/
def isSpaceChar (c : Char) : Bool :=
  c.toNat = 32 ∨ c.toNat = 9 ∨ c.toNat = 10 ∨ c.toNat = 13 ∨
    c.toNat = 11 ∨ c.toNat = 12

/-- ASCII lowercasing of one character. -/
def lowerChar (c : Char) : Char :=
  if isUpperChar c then Char.ofNat (c.toNat + 32) else c

/-- JS `value.toLowerCase()` (ASCII case folding, as the vocabulary lists
require, §4.1). -/
def lowerStr (s : String) : String :=
  (s.data.map lowerChar).asString

/-- `pat` starts the list `l` (character-wise). -/
def listStarts : List Char → List Char → Bool
  | [], _ => true
  | _ :: _, [] => false
  | p :: ps, c :: cs => p == c && listStarts ps cs

/-- `pat` occurs as a contiguous run inside `l`. -/
def listHasSub (pat : List Char) : List Char → Bool
  | [] => pat.isEmpty
  | c :: cs => listStarts pat (c :: cs) || listHasSub pat cs

/-- JS `s.includes(pat)`. -/
def strContains (s pat : String) : Bool :=
  listHasSub pat.data s.data

/-- JS `[a, b, c].filter(Boolean)` over possibly-absent strings: keeps the
present, non-empty values in order. -/
def fBool (xs : List (Option String)) : List String :=
  (xs.filterMap id).filter (fun s => s ≠ "")

/-- JS `value.toLowerCase().replace(/[\s_-]/g, '')`. -/
def sepClean (value : String) : String :=
  ((lowerStr value).data.filter
    (fun c => ¬ (isSpaceChar c ∨ c = '_' ∨ c = '-'))).asString

/-- JS `attr.toLowerCase().replace(/[^a-zA-Z0-9]+/g, '')`. -/
def alnumClean (attr : String) : String :=
  ((lowerStr attr).data.filter (fun c => isAlnumChar c)).asString

/-- JS `name.replace(/[^a-zA-Z0-9]+/g, '')` (no case folding). -/
def alnumStrip (name : String) : String :=
  (name.data.filter (fun c => isAlnumChar c)).asString

/-- JS `replace(/([a-z])([A-Z])/g, '$1 $2')`: insert a space between a
lowercase letter and an immediately following uppercase letter. -/
def camelSep : List Char → List Char
  | a :: b :: rest =>
      if isLowerChar a && isUpperChar b then a :: ' ' :: camelSep (b :: rest)
      else a :: camelSep (b :: rest)
  | l => l

/-- JS `String.split` against a character-class predicate: runs between
separator characters, keeping empty runs (as JS split does). -/
def splitPred (p : Char → Bool) : List Char → List Char → List String
  | acc, [] => [acc.reverse.asString]
  | acc, c :: cs =>
      if p c then acc.reverse.asString :: splitPred p [] cs
      else splitPred p (c :: acc) cs

/-- JS `Array.indexOf` keyed on element identity: position of the first
element with the given `ref`, or `-1` when absent. -/
def indexOfRef : List Element → Nat → Int
  | [], _ => -1
  | e :: rest, r =>
      if e.ref == r then 0
      else
        let i := indexOfRef rest r
        if i < 0 then -1 else i + 1

/-- `getElementIndex(element)`: index among `document.querySelectorAll('*')`
of the ambient global document. -/
def getElementIndex (gdoc : Doc) (element : Element) : Int :=
  indexOfRef gdoc.elems element.ref

/-- `isLikePassword(field)`. -/
def isLikePassword (field : Element) : Bool :=
  let values := fBool [field.id, field.name, field.placeholder]
  values.any (fun value =>
    let cleanValue := sepClean value
    strContains cleanValue "password" &&
      ¬ passwordFieldExcludeList.any (fun excl => strContains cleanValue excl))

/-- `hasDisqualifyingValue(field)`. -/
def hasDisqualifyingValue (field : Element) : Bool :=
  let values := fBool [field.id, field.name, field.placeholder]
  values.any (fun value =>
    passwordFieldExcludeList.any (fun excl => strContains (sepClean value) excl))

/-- `isPasswordField(field)`; `none` is JS `null`/`undefined`. -/
def isPasswordField (field? : Option Element) : Bool :=
  match field? with
  | none => false
  | some field =>
    if field.disabled then false
    else if field.type = "password" then ¬ hasDisqualifyingValue field
    else if field.type = "text" && isLikePassword field then ¬ hasDisqualifyingValue field
    else false

/-- `isSearchField(field)`. -/
def isSearchField (field : Element) : Bool :=
  let values := fBool [some field.type, field.name, field.id, field.placeholder]
  values.any (fun value =>
    let words := splitPred (fun c => ¬ isAlphaChar c) [] (camelSep (lowerStr value).data)
    words.any (fun word => searchFieldNames.contains word))

/-- `getFieldLabel(field)`: explicit `label[for=id]` lookup against the
ambient global document, else the nearest enclosing label, else `""`. -/
def getFieldLabel (gdoc : Doc) (field : Element) : String :=
  let byId : Option String :=
    match field.id with
    | some fid =>
        if fid ≠ "" then (gdoc.labels.find? (fun p => p.1 = fid)).map (fun p => p.2)
        else none
    | none => none
  match byId with
  | some txt => txt
  | none =>
    match field.parentLabelText with
    | some txt => txt
    | none => ""

/-- `matchesUsernamePattern(field)`. -/
def matchesUsernamePattern (gdoc : Doc) (field : Element) : Bool :=
  let attributes := fBool [field.id, field.name, field.placeholder,
    some (getFieldLabel gdoc field), field.ariaLabel]
  attributes.any (fun attr =>
    let cleanAttr := alnumClean attr
    usernameFieldNames.any (fun nm =>
      cleanAttr = alnumStrip nm || strContains cleanAttr (alnumStrip nm)))

/-- `isUsernameField(field, passwordField)`. -/
def isUsernameField (gdoc : Doc) (field? : Option Element)
    (passwordField : Option Element) : Bool :=
  match field? with
  | none => false
  | some field =>
    if field.disabled || excludedInputTypes.contains field.type then false
    else if ¬ (["text", "email", "tel"].contains field.type) then false
    else if isSearchField field then false
    else if (match passwordField with
             | some pf => decide (getElementIndex gdoc field ≥ getElementIndex gdoc pf)
             | none => false) then false
    else matchesUsernamePattern gdoc field

/-- `detectPasswordFields(document)`: filter `querySelectorAll('input, textarea')`. -/
def detectPasswordFields (doc : Doc) : List Element :=
  (doc.elems.filter (fun e => e.tag = "input" ∨ e.tag = "textarea")).filter
    (fun field => isPasswordField (some field))

/-- `detectUsernameFields(document, passwordField)`: filter
`querySelectorAll('input')`. -/
def detectUsernameFields (gdoc : Doc) (doc : Doc)
    (passwordField : Option Element) : List Element :=
  (doc.elems.filter (fun e => e.tag = "input")).filter
    (fun field => isUsernameField gdoc (some field) passwordField)

/-- The `filteredCandidates` local of `findUsernameForPassword`: candidates
restricted to the password field's enclosing form when one exists. -/
def filteredCandidates (gdoc : Doc) (passwordField : Element) (doc : Doc) :
    List Element :=
  let candidates := detectUsernameFields gdoc doc (some passwordField)
  if passwordField.formRef.isSome then
    candidates.filter (fun field => field.formRef == passwordField.formRef)
  else candidates

/-- Body of `findUsernameForPassword` once `passwordField.closest('form')`
has succeeded (i.e. the password field is present). -/
def findUsernameForPasswordCore (gdoc : Doc) (passwordField : Element)
    (doc : Doc) : Option Element :=
  let fc := filteredCandidates gdoc passwordField doc
  if 0 < fc.length then fc.getLast? else none

/-- `findUsernameForPassword(passwordField, document)`: on a `null`
password field, `passwordField.closest('form')` raises a TypeError,
modelled as `Except.error`. -/
def findUsernameForPassword (gdoc : Doc) (passwordField? : Option Element)
    (doc : Doc) : Except Unit (Option Element) :=
  match passwordField? with
  | none => Except.error ()
  | some passwordField => Except.ok (findUsernameForPasswordCore gdoc passwordField doc)

/-- One record produced by `getLoginForms`. -/
structure LoginFormRecord where
  form : Option Nat
  passwordField : Element
  usernameField : Option Element
  formAction : Option String
  formMethod : Option String
  deriving DecidableEq, Repr

/-- `getLoginForms(document)`. -/
def getLoginForms (gdoc : Doc) (doc : Doc) : List LoginFormRecord :=
  (detectPasswordFields doc).map (fun passwordField =>
    let usernameField := findUsernameForPasswordCore gdoc passwordField doc
    let form := passwordField.formRef
    { form := form
      passwordField := passwordField
      usernameField := usernameField
      formAction := form.map doc.formAction
      formMethod := form.map doc.formMethod })

end FieldDetector

namespace FieldDetector

/-! Concrete fixtures used by counterexamples and witnesses. -/

/-- A text input named "email", no id, no enclosing form. -/
def uEmail : Element :=
  { ref := 1, tag := "input", type := "text", id := none, name := some "email",
    placeholder := none, ariaLabel := none, disabled := false,
    formRef := none, parentLabelText := none }

/-- A password input named "pass", no id, no enclosing form. -/
def pwEl : Element :=
  { ref := 2, tag := "input", type := "password", id := none, name := some "pass",
    placeholder := none, ariaLabel := none, disabled := false,
    formRef := none, parentLabelText := none }

/-- A document whose elements are the username input followed by the
password input. -/
def docA : Doc := ⟨[uEmail, pwEl], [], fun _ => "", fun _ => ""⟩

/-- The same two elements in the opposite order: a different ambient
global document over the same supplied elements. -/
def gdocB : Doc := ⟨[pwEl, uEmail], [], fun _ => "", fun _ => ""⟩

/-- A document with no elements. -/
def emptyDoc : Doc := ⟨[], [], fun _ => "", fun _ => ""⟩

/-- A text input whose name is the camel-case compound "siteSearch" and
whose placeholder matches the username vocabulary. -/
def siteSearchEl : Element :=
  { ref := 3, tag := "input", type := "text", id := none, name := some "siteSearch",
    placeholder := some "email", ariaLabel := none, disabled := false,
    formRef := none, parentLabelText := none }

/-- A text input whose name is "site search" with an explicit separator. -/
def siteSpaceEl : Element :=
  { ref := 4, tag := "input", type := "text", id := none, name := some "site search",
    placeholder := some "email", ariaLabel := none, disabled := false,
    formRef := none, parentLabelText := none }

/-! Claim theorems. -/

/-- Claim C1, counterexample: two runs of `detectUsernameFields` with the
same supplied document and the same password-field argument but different
ambient global documents return different results, because
`getElementIndex` reads the ambient global document. -/
theorem claim_C1_counterexample :
    detectUsernameFields docA docA (some pwEl) ≠
      detectUsernameFields gdocB docA (some pwEl) := by
  decide

/-- Claim C1, amended: the entry points are functions of the supplied
document and of the ambient global document, which `getElementIndex` and
`getFieldLabel` read; when the paths that consult the ambient global are
not exercised — no password-field context and no `id` attributes — the
results agree for any two ambient globals. -/
theorem claim_C1_amended (g₁ g₂ doc : Doc) (h : ∀ e ∈ doc.elems, e.id = none) :
    detectUsernameFields g₁ doc none = detectUsernameFields g₂ doc none := by
  unfold detectUsernameFields
  apply List.filter_congr
  intro x hx
  have hid : x.id = none := h x (List.mem_of_mem_filter hx)
  have hlbl : getFieldLabel g₁ x = getFieldLabel g₂ x := by
    simp [getFieldLabel, hid]
  simp only [isUsernameField, matchesUsernamePattern, hlbl]

/-- Claim C1, witness for the amended theorem at a concrete document with
id-free fields and two distinct ambient globals. -/
theorem claim_C1_witness :
    detectUsernameFields docA docA none = detectUsernameFields gdocB docA none :=
  claim_C1_amended docA gdocB docA (by decide)

/-- Claim C2, evaluation at the failing input: `isSearchField` lowercases
the value before applying the camel-case replacement, so the replacement
never fires; the camel-case name "siteSearch" is not tokenized into
"site"/"search" and the field is not rejected, while the separated
spelling "site search" is; consequently `isUsernameField` accepts the
"siteSearch" field through its "email" placeholder. -/
theorem claim_C2_code_eval :
    isSearchField siteSearchEl = false ∧
    isSearchField siteSpaceEl = true ∧
    isUsernameField emptyDoc (some siteSearchEl) none = true := by
  decide

/-- Claim C3, counterexample: with an absent password field,
`findUsernameForPassword` dereferences it (`passwordField.closest`) and
signals a type error rather than returning none. -/
theorem claim_C3_counterexample :
    findUsernameForPassword docA none docA = Except.error () := rfl

/-- Claim C3, amended: `isPasswordField` and `isUsernameField` return
false on an absent field, and `findUsernameForPassword` never signals an
error when the supplied password field is present. -/
theorem claim_C3_amended :
    isPasswordField none = false ∧
    (∀ (gdoc : Doc) (pf? : Option Element), isUsernameField gdoc none pf? = false) ∧
    (∀ (gdoc : Doc) (pf : Element) (doc : Doc),
      (findUsernameForPassword gdoc (some pf) doc).isOk = true) :=
  ⟨rfl, fun _ _ => rfl, fun _ _ _ => rfl⟩

/-- Claim C9: two runs of `detectPasswordFields` against the same
unchanged document snapshot return equal ordered sequences. -/
theorem claim_C9_idempotent (doc : Doc) (l₁ l₂ : List Element)
    (h₁ : l₁ = detectPasswordFields doc) (h₂ : l₂ = detectPasswordFields doc) :
    l₁ = l₂ :=
  h₁.trans h₂.symm

/-- Claim C9, witness at a concrete document. -/
theorem claim_C9_witness : ([pwEl] : List Element) = [pwEl] :=
  claim_C9_idempotent docA [pwEl] [pwEl] (by decide) (by decide)

end FieldDetector

namespace FieldDetector

/-- Claim C6: a field whose document-order index is not strictly below the
supplied password field's index is never classified as a username field. -/
theorem claim_C6_must_precede (gdoc : Doc) (f pf : Element)
    (h : getElementIndex gdoc pf ≤ getElementIndex gdoc f) :
    isUsernameField gdoc (some f) (some pf) = false := by
  have hd : decide (getElementIndex gdoc f ≥ getElementIndex gdoc pf) = true :=
    decide_eq_true h
  simp only [isUsernameField, hd]
  split
  · rfl
  · split
    · rfl
    · split
      · rfl
      · simp

/-- Claim C6, witness: a field compared against itself has equal indices,
hence is rejected. -/
theorem claim_C6_witness : isUsernameField docA (some uEmail) (some uEmail) = false :=
  claim_C6_must_precede docA uEmail uEmail (le_refl _)

/-- Claim C7: a text field named "password_hint" whose other checked
attributes do not themselves contain the separator-stripped substring
"password" is not a password field — the name matches "password" but also
the exclude entry "hint". -/
theorem claim_C7_password_hint (f : Element) (hty : f.type = "text")
    (hn : f.name = some "password_hint")
    (hid : ∀ s, f.id = some s → strContains (sepClean s) "password" = false)
    (hph : ∀ s, f.placeholder = some s → strContains (sepClean s) "password" = false) :
    isPasswordField (some f) = false := by
  have hlp : isLikePassword f = false := by
    unfold isLikePassword
    rw [List.any_eq_false]
    intro v hv
    have hv1 := (List.mem_filter.mp hv).1
    rcases List.mem_filterMap.mp hv1 with ⟨o, ho, hov⟩
    simp only [id] at hov
    rcases List.mem_cons.mp ho with rfl | ho
    · simp [hid v hov]
    · rcases List.mem_cons.mp ho with rfl | ho
      · rw [hn] at hov
        have hveq : v = "password_hint" := by
          injection hov with h'; exact h'.symm
        subst hveq
        decide
      · rcases List.mem_cons.mp ho with rfl | ho
        · simp [hph v hov]
        · exact absurd ho (List.not_mem_nil o)
  unfold isPasswordField
  simp [hty, hlp]

/-- Claim C7, witness at a concrete "password_hint" text field. -/
theorem claim_C7_witness :
    isPasswordField (some
      { ref := 5, tag := "input", type := "text", id := none,
        name := some "password_hint", placeholder := none, ariaLabel := none,
        disabled := false, formRef := none, parentLabelText := none }) = false :=
  claim_C7_password_hint _ rfl rfl (fun _ h => Option.noConfusion h)
    (fun _ h => Option.noConfusion h)

end FieldDetector

namespace FieldDetector

/-- Characters of a pattern matched at the front occur in the searched
list. -/
theorem mem_of_listStarts : ∀ {pat l : List Char}, listStarts pat l = true →
    ∀ c ∈ pat, c ∈ l := by
  intro pat
  induction pat with
  | nil => intro l _ c hc; exact absurd hc (List.not_mem_nil c)
  | cons p ps ih =>
    intro l h c hc
    cases l with
    | nil => simp [listStarts] at h
    | cons a as =>
      simp only [listStarts, Bool.and_eq_true, beq_iff_eq] at h
      rcases List.mem_cons.mp hc with rfl | hc
      · exact h.1 ▸ List.mem_cons_self a as
      · exact List.mem_cons_of_mem a (ih h.2 c hc)

/-- Characters of a matched substring occur in the searched list. -/
theorem mem_of_listHasSub : ∀ {pat l : List Char}, listHasSub pat l = true →
    ∀ c ∈ pat, c ∈ l := by
  intro pat l
  induction l with
  | nil =>
    intro h c hc
    cases pat with
    | nil => exact absurd hc (List.not_mem_nil c)
    | cons q qs => simp [listHasSub, List.isEmpty] at h
  | cons a as ih =>
    intro h c hc
    simp only [listHasSub, Bool.or_eq_true] at h
    rcases h with h | h
    · exact mem_of_listStarts h c hc
    · exact List.mem_cons_of_mem a (ih h c hc)

/-- Separator-stripped values contain no whitespace, underscore or
hyphen. -/
theorem sepClean_no_sep {s : String} {c : Char} (hc : c ∈ (sepClean s).data) :
    ¬ (isSpaceChar c ∨ c = '_' ∨ c = '-') := by
  unfold sepClean at hc
  have hc2 := (List.mem_filter.mp hc).2
  exact of_decide_eq_true hc2

/-- The exclude-vocabulary entries that themselves contain a space,
hyphen or underscore. -/
def sepExcludeEntries : List String :=
  ["otc-code", "otp-code", "security_code", "verification code"]

/-- Follows the implicit claim's words: `hasDisqualifyingValue` with the
separator-carrying entries removed from the exclude vocabulary, for
comparison with the source definition. -/
def hasDisqualifyingValuePruned (field : Element) : Bool :=
  let values := fBool [field.id, field.name, field.placeholder]
  values.any (fun value =>
    (passwordFieldExcludeList.filter (fun e => decide (e ∉ sepExcludeEntries))).any
      (fun excl => strContains (sepClean value) excl))

/-- An exclude entry carrying a separator character never occurs in a
separator-stripped value. -/
theorem strContains_sepClean_sep_entry (s e : String) (he : e ∈ sepExcludeEntries) :
    strContains (sepClean s) e = false := by
  have hbad : ∀ x ∈ sepExcludeEntries, ∃ c ∈ x.data,
      (isSpaceChar c ∨ c = '_' ∨ c = '-') := by decide
  cases hcc : strContains (sepClean s) e with
  | false => rfl
  | true =>
    obtain ⟨c, hce, hcbad⟩ := hbad e he
    have hmem : c ∈ (sepClean s).data := mem_of_listHasSub hcc c hce
    exact absurd hcbad (sepClean_no_sep hmem)

/-- Congruence of `List.any` for pointwise-equal predicates. -/
theorem any_congr_mem {α : Type} {l : List α} {p q : α → Bool}
    (h : ∀ a ∈ l, p a = q a) : l.any p = l.any q := by
  induction l with
  | nil => rfl
  | cons a t ih =>
    simp only [List.any_cons, h a (List.mem_cons_self a t),
      ih (fun b hb => h b (List.mem_cons_of_mem a hb))]

/-- Filtering out entries on which the predicate is false does not change
`List.any`. -/
theorem any_eq_any_filter {α : Type} (l : List α) (p q : α → Bool)
    (h : ∀ e ∈ l, q e = false → p e = false) : l.any p = (l.filter q).any p := by
  induction l with
  | nil => rfl
  | cons a t ih =>
    have ht : ∀ e ∈ t, q e = false → p e = false :=
      fun e he => h e (List.mem_cons_of_mem a he)
    cases hq : q a with
    | true => simp [List.any_cons, List.filter_cons, hq, ih ht]
    | false =>
      simp [List.any_cons, List.filter_cons, hq, h a (List.mem_cons_self a t) hq,
        ih ht]

/-- A password input named "security_code". -/
def securityCodeEl : Element :=
  { ref := 6, tag := "input", type := "password", id := none,
    name := some "security_code", placeholder := none, ariaLabel := none,
    disabled := false, formRef := none, parentLabelText := none }

/-- Claim C10: every exclude entry that contains a space, hyphen or
underscore never occurs in a separator-stripped value, so
`hasDisqualifyingValue` is unchanged when those entries are removed, and
a password field named "security_code" is accepted. -/
theorem claim_C10_dead_entries :
    (∀ (s e : String), e ∈ sepExcludeEntries → strContains (sepClean s) e = false) ∧
    (∀ field, hasDisqualifyingValue field = hasDisqualifyingValuePruned field) ∧
    isPasswordField (some securityCodeEl) = true := by
  refine ⟨strContains_sepClean_sep_entry, fun field => ?_, by decide⟩
  unfold hasDisqualifyingValue hasDisqualifyingValuePruned
  apply any_congr_mem
  intro v _
  apply any_eq_any_filter
  intro e _ hq
  have hmem : e ∈ sepExcludeEntries := by
    have := of_decide_eq_false hq
    exact not_not.mp this
  exact strContains_sepClean_sep_entry v e hmem

/-- Claim C10, witness: the "security_code" entry is in the
separator-carrying set, yet does not match a value that spells it out. -/
theorem claim_C10_witness :
    strContains (sepClean "my security_code value") "security_code" = false :=
  claim_C10_dead_entries.1 "my security_code value" "security_code" (by decide)

end FieldDetector

namespace FieldDetector

/-- An element present in the list has a non-negative index. -/
theorem indexOfRef_nonneg : ∀ {l : List Element} {e : Element}, e ∈ l →
    0 ≤ indexOfRef l e.ref := by
  intro l
  induction l with
  | nil => intro e he; exact absurd he (List.not_mem_nil e)
  | cons a t ih =>
    intro e he
    cases hq : (a.ref == e.ref) with
    | true => simp [indexOfRef, hq]
    | false =>
      rcases List.mem_cons.mp he with rfl | he2
      · simp at hq
      · have hnn := ih he2
        simp only [indexOfRef, hq, Bool.false_eq_true, if_false]
        rw [if_neg (by omega)]
        omega

/-- Prepending an element with a different ref shifts a found index by
one. -/
theorem indexOfRef_cons_ne {a : Element} {t : List Element} {r : Nat}
    (hne : a.ref ≠ r) (hnn : 0 ≤ indexOfRef t r) :
    indexOfRef (a :: t) r = indexOfRef t r + 1 := by
  have h1 : (a.ref == r) = false := by simp [hne]
  simp only [indexOfRef, h1, Bool.false_eq_true, if_false]
  rw [if_neg (by omega)]

/-- In a list whose refs are distinct, earlier elements have strictly
smaller indices. -/
theorem pairwise_indexOfRef : ∀ {l : List Element},
    (l.map Element.ref).Nodup →
    l.Pairwise (fun a b => indexOfRef l a.ref < indexOfRef l b.ref) := by
  intro l
  induction l with
  | nil => intro _; exact List.Pairwise.nil
  | cons a t ih =>
    intro hnd
    rw [List.map_cons, List.nodup_cons] at hnd
    obtain ⟨hna, hnt⟩ := hnd
    have hat : ∀ b ∈ t, b.ref ≠ a.ref := by
      intro b hb heq
      exact hna (heq ▸ List.mem_map_of_mem Element.ref hb)
    refine List.Pairwise.cons ?_ ?_
    · intro b hb
      have h0 : indexOfRef (a :: t) a.ref = 0 := by simp [indexOfRef]
      have hbn : 0 ≤ indexOfRef t b.ref := indexOfRef_nonneg hb
      have hsh : indexOfRef (a :: t) b.ref = indexOfRef t b.ref + 1 :=
        indexOfRef_cons_ne (fun h => hat b hb h.symm) hbn
      omega
    · refine List.Pairwise.imp_of_mem ?_ (ih hnt)
      intro x y hx hy hxy
      have hxn := indexOfRef_nonneg hx
      have hyn := indexOfRef_nonneg hy
      rw [indexOfRef_cons_ne (fun h => hat x hx h.symm) hxn,
        indexOfRef_cons_ne (fun h => hat y hy h.symm) hyn]
      omega

/-- A non-empty list has a last element. -/
theorem getLastOpt_of_ne {α : Type} : ∀ (s : List α), s ≠ [] →
    ∃ u, s.getLast? = some u
  | [], h => absurd rfl h
  | [a], _ => ⟨a, rfl⟩
  | _ :: b :: t, _ => by
      rw [List.getLast?_cons_cons]
      exact getLastOpt_of_ne (b :: t) (List.cons_ne_nil b t)

/-- The last element of a list is a member. -/
theorem mem_of_getLastOpt {α : Type} : ∀ {s : List α} {u : α},
    s.getLast? = some u → u ∈ s := by
  intro s
  induction s with
  | nil => intro u h; simp at h
  | cons a t ih =>
    intro u h
    cases t with
    | nil =>
      have : a = u := by simpa using h
      exact this ▸ List.mem_singleton_self a
    | cons b t2 =>
      rw [List.getLast?_cons_cons] at h
      exact List.mem_cons_of_mem a (ih h)

/-- Along a list that is strictly increasing under `f`, every member is
bounded by the last element. -/
theorem le_of_getLastOpt {α : Type} (f : α → Int) : ∀ (s : List α),
    s.Pairwise (fun a b => f a < f b) → ∀ u, s.getLast? = some u →
    ∀ v ∈ s, f v ≤ f u := by
  intro s
  induction s with
  | nil => intro _ u h; simp at h
  | cons a t ih =>
    intro hp u h v hv
    cases t with
    | nil =>
      have hau : a = u := by simpa using h
      rcases List.mem_singleton.mp hv with rfl
      exact le_of_eq (congrArg f hau)
    | cons b t2 =>
      rw [List.getLast?_cons_cons] at h
      rcases List.mem_cons.mp hv with rfl | hv2
      · have hu : u ∈ b :: t2 := mem_of_getLastOpt h
        exact le_of_lt (List.rel_of_pairwise_cons hp hu)
      · exact ih (List.Pairwise.of_cons hp) u h v hv2

/-- The filtered candidate list is a sublist of the supplied document's
element list. -/
theorem filteredCandidates_sublist (gdoc : Doc) (pf : Element) (doc : Doc) :
    List.Sublist (filteredCandidates gdoc pf doc) doc.elems := by
  have h1 : List.Sublist (detectUsernameFields gdoc doc (some pf)) doc.elems := by
    unfold detectUsernameFields
    exact List.Sublist.trans (List.filter_sublist _) (List.filter_sublist _)
  unfold filteredCandidates
  by_cases hf : pf.formRef.isSome = true
  · rw [if_pos hf]
    exact List.Sublist.trans (List.filter_sublist _) h1
  · rw [if_neg hf]
    exact h1

/-- Claim C4: over one document snapshot with distinct element
identities, `findUsernameForPassword` returns none exactly when the
filtered candidate set is empty, and otherwise returns a member of that
set whose document-order index is greatest. -/
theorem claim_C4_greatest_index (doc : Doc) (pf : Element)
    (hnd : (doc.elems.map Element.ref).Nodup) :
    (filteredCandidates doc pf doc = [] →
      findUsernameForPasswordCore doc pf doc = none) ∧
    (filteredCandidates doc pf doc ≠ [] →
      ∃ u, findUsernameForPasswordCore doc pf doc = some u ∧
        u ∈ filteredCandidates doc pf doc ∧
        ∀ v ∈ filteredCandidates doc pf doc,
          getElementIndex doc v ≤ getElementIndex doc u) := by
  constructor
  · intro h
    simp [findUsernameForPasswordCore, h]
  · intro h
    have hps := filteredCandidates_sublist doc pf doc
    have hpw : (filteredCandidates doc pf doc).Pairwise
        (fun a b => indexOfRef doc.elems a.ref < indexOfRef doc.elems b.ref) :=
      List.Pairwise.sublist hps (pairwise_indexOfRef hnd)
    have hlen : 0 < (filteredCandidates doc pf doc).length :=
      List.length_pos.mpr h
    obtain ⟨u, hu⟩ := getLastOpt_of_ne (filteredCandidates doc pf doc) h
    refine ⟨u, ?_, mem_of_getLastOpt hu, ?_⟩
    · simp only [findUsernameForPasswordCore]
      rw [if_pos hlen]
      exact hu
    · exact le_of_getLastOpt (fun e => indexOfRef doc.elems e.ref)
        (filteredCandidates doc pf doc) hpw u hu

/-- Claim C4, witness: in the two-field document the single candidate is
returned as the maximal preceding one. -/
theorem claim_C4_witness :
    ∃ u, findUsernameForPasswordCore docA pwEl docA = some u ∧
      u ∈ filteredCandidates docA pwEl docA ∧
      ∀ v ∈ filteredCandidates docA pwEl docA,
        getElementIndex docA v ≤ getElementIndex docA u :=
  (claim_C4_greatest_index docA pwEl (by decide)).2 (by decide)

/-- Claim C5: when the password field has an enclosing form, any field
returned by `findUsernameForPassword` shares that enclosing form. -/
theorem claim_C5_same_form (gdoc doc : Doc) (pf u : Element) (fid : Nat)
    (hf : pf.formRef = some fid)
    (hres : findUsernameForPasswordCore gdoc pf doc = some u) :
    u.formRef = some fid := by
  unfold findUsernameForPasswordCore at hres
  by_cases hlen : 0 < (filteredCandidates gdoc pf doc).length
  · rw [if_pos hlen] at hres
    have hu : u ∈ filteredCandidates gdoc pf doc := mem_of_getLastOpt hres
    unfold filteredCandidates at hu
    rw [if_pos (by simp [hf])] at hu
    have hbeq := (List.mem_filter.mp hu).2
    have : u.formRef = pf.formRef := eq_of_beq hbeq
    rw [this, hf]
  · rw [if_neg hlen] at hres
    exact absurd hres (by simp)

end FieldDetector

namespace FieldDetector

/-- A text input named "email" outside any form. -/
def outsideUser : Element :=
  { ref := 10, tag := "input", type := "text", id := none, name := some "email",
    placeholder := none, ariaLabel := none, disabled := false,
    formRef := none, parentLabelText := none }

/-- A text input named "email" inside form 7. -/
def formUser : Element :=
  { ref := 11, tag := "input", type := "text", id := none, name := some "email",
    placeholder := none, ariaLabel := none, disabled := false,
    formRef := some 7, parentLabelText := none }

/-- A password input inside form 7. -/
def formPw : Element :=
  { ref := 12, tag := "input", type := "password", id := none, name := some "pass",
    placeholder := none, ariaLabel := none, disabled := false,
    formRef := some 7, parentLabelText := none }

/-- A document with a username candidate outside the form and one inside. -/
def docF : Doc := ⟨[outsideUser, formUser, formPw], [], fun _ => "", fun _ => ""⟩

/-- Claim C5, witness: with one matching candidate outside the password
field's form and one inside, the returned field is the in-form one. -/
theorem claim_C5_witness : formUser.formRef = some 7 :=
  claim_C5_same_form docF docF formPw formUser 7 rfl (by decide)

/-- Claim C8: every record produced by `getLoginForms` carries a password
field accepted by `isPasswordField`, and its username field is absent
exactly when the filtered candidate set for that password field is
empty. -/
theorem claim_C8_record_invariant (gdoc doc : Doc) (r : LoginFormRecord)
    (hr : r ∈ getLoginForms gdoc doc) :
    isPasswordField (some r.passwordField) = true ∧
    (r.usernameField = none ↔ filteredCandidates gdoc r.passwordField doc = []) := by
  unfold getLoginForms at hr
  obtain ⟨pf, hpf, hreq⟩ := List.mem_map.mp hr
  have hpass : isPasswordField (some pf) = true := by
    unfold detectPasswordFields at hpf
    exact (List.mem_filter.mp hpf).2
  have hpfeq : r.passwordField = pf := by rw [← hreq]
  have hueq : r.usernameField = findUsernameForPasswordCore gdoc pf doc := by
    rw [← hreq]
  refine ⟨hpfeq ▸ hpass, ?_⟩
  rw [hpfeq, hueq]
  cases hfc : filteredCandidates gdoc pf doc with
  | nil => simp [findUsernameForPasswordCore, hfc]
  | cons a t =>
    obtain ⟨u, hu⟩ := getLastOpt_of_ne (a :: t) (List.cons_ne_nil a t)
    simp [findUsernameForPasswordCore, hfc, hu]

/-- The record produced for the two-field document. -/
def c8rec : LoginFormRecord :=
  { form := none, passwordField := pwEl, usernameField := some uEmail,
    formAction := none, formMethod := none }

/-- Claim C8, witness at the concrete two-field document. -/
theorem claim_C8_witness :
    isPasswordField (some c8rec.passwordField) = true ∧
    (c8rec.usernameField = none ↔
      filteredCandidates docA c8rec.passwordField docA = []) :=
  claim_C8_record_invariant docA docA c8rec (by decide)

end FieldDetector
